import Mathlib

/-!
Shallow embedding of `models.py` (class `FullyConnectedWTA`), a fully-connected
winner-take-all autoencoder.  Real-valued tensors are modelled over `ℚ`;
matrices of shape `[m, n]` are functions `Fin m → Fin n → ℚ`.

Correspondence with the source:
  * `Config`       — the constructor arguments stored in `__init__`.
  * `kOf`          — `k = int(self.sparsity * self.batch_size)` (line 73).
  * `topk`/`maskOf`— `tf.nn.top_k` over the transposed activations followed by
    the `tf.scatter_nd` construction of the binary mask (lines 69-86).
    `tf.nn.top_k` orders by value descending, breaking ties by lower index
    first; `beats v i j` is that strict order and `rank v i` the position of
    `i` in it, so the selected set is exactly the indices of rank below `k`.
    `maskOf` counts, per cell, how many scatter coordinate pairs hit it
    (scatter_nd adds duplicated indices; within a row the top-k indices are
    distinct, so each cell receives 0 or 1).
  * `sparseOf`     — `sparse_encoded = self.encoded * tf.transpose(mask)`
    (line 87).
  * `constructGraph` — the construction-time outcome of `__init__`: the ops
    all build except that `k = 0` makes `tf.scatter_nd` (line 86) raise a
    TypeError inside the constructor (see its doc comment for the trace).
-/

namespace WTA

/-- Constructor configuration of `FullyConnectedWTA.__init__` (lines 12-51).
The optimizer object is kept abstract (it is an injected parameter in the
source as well); `weight_initializer`/`bias_initializer` only matter for the
initial parameter values, which the claims quantify over. -/
structure Config where
  inputDim : ℕ
  batchSize : ℕ
  sparsity : ℚ
  hiddenUnits : ℕ
  encodeLayers : ℕ
  learningRate : ℚ
  tieWeights : Bool

/-- Line 73: `k = int(self.sparsity * self.batch_size)`; for the nonnegative
sparsities of interest Python `int` truncation agrees with the floor. -/
def kOf (c : Config) : ℕ := (c.sparsity * (c.batchSize : ℚ)).floor.toNat

/-- Strict priority order used by `tf.nn.top_k` on one row `v`: index `i`
is ranked above index `j` when its value is larger, or the values are equal
and `i` is the smaller index. -/
def beats {n : ℕ} (v : Fin n → ℚ) (i j : Fin n) : Prop :=
  v j < v i ∨ (v i = v j ∧ i < j)

instance beatsDecidable {n : ℕ} (v : Fin n → ℚ) (i j : Fin n) :
    Decidable (beats v i j) :=
  inferInstanceAs (Decidable (_ ∨ _))

/-- Position of index `i` in the top-k priority order of row `v`: the number
of indices ranked strictly above it. -/
def rank {n : ℕ} (v : Fin n → ℚ) (i : Fin n) : ℕ :=
  (Finset.univ.filter (fun j => beats v j i)).card

/-- The set of indices selected by `tf.nn.top_k(v, k)` (line 74): the `k`
indices of highest priority. -/
def topk {n : ℕ} (v : Fin n → ℚ) (k : ℕ) : Finset (Fin n) :=
  Finset.univ.filter (fun i => rank v i < k)

/-- Lines 75-86: the scatter_nd construction of the mask.  Row `h` of the
mask receives one coordinate pair `(h, b)` for every top-k index `b` of the
transposed-activation row of hidden unit `h`; scatter_nd adds a `1` for each
pair hitting a cell of the zero matrix.  A graph containing these ops only
exists for `k ≥ 1` — at `k = 0` graph construction itself fails (see
`constructGraph` below), so the `k = 0` value of this function is the
mathematical extension (empty selection), never a behaviour of the
program. -/
def maskOf {bs hu : ℕ} (E : Fin bs → Fin hu → ℚ) (k : ℕ) :
    Fin hu → Fin bs → ℚ :=
  fun h b => (((topk (fun b2 => E b2 h) k).filter (fun i => i = b)).card : ℚ)

/-- Line 87: `sparse_encoded = self.encoded * tf.transpose(mask)`. -/
def sparseOf {bs hu : ℕ} (E : Fin bs → Fin hu → ℚ) (k : ℕ) :
    Fin bs → Fin hu → ℚ :=
  fun i j => E i j * maskOf E k j i

end WTA

namespace WTA

/-- Trainable tensors created by `_initialize_vars`/`_relu_layer`/
`_decode_layer`.  `hiddenW i`/`hiddenB i` are `encode_W_i`/`encode_b_i` for
`i < encode_layers - 1` (the `input_dim → input_dim` layers of the loop on
lines 64-65); `finalW`/`finalB` are `encode_W_(encode_layers-1)` and its bias
(line 66, `input_dim → hidden_units`); `decodeB` is `decode_b`;
`untiedDecodeW` is the `decode_W` variable that `_decode_layer` creates only
when `tie_weights` is false (lines 119-123). -/
structure Params (c : Config) where
  hiddenW : Fin (c.encodeLayers - 1) → Fin c.inputDim → Fin c.inputDim → ℚ
  hiddenB : Fin (c.encodeLayers - 1) → Fin c.inputDim → ℚ
  finalW : Fin c.inputDim → Fin c.hiddenUnits → ℚ
  finalB : Fin c.hiddenUnits → ℚ
  decodeB : Fin c.inputDim → ℚ
  untiedDecodeW : Fin c.hiddenUnits → Fin c.inputDim → ℚ

/-- Lines 97-107: `tf.nn.relu_layer(input, W, b) = relu(input @ W + b)`. -/
def reluLayer {m a d : ℕ} (inp : Fin m → Fin a → ℚ) (W : Fin a → Fin d → ℚ)
    (bias : Fin d → ℚ) : Fin m → Fin d → ℚ :=
  fun r j => max 0 ((∑ t, inp r t * W t j) + bias j)

/-- Lines 63-65: the loop `for i in range(self.encode_layers - 1)` applying
the `input_dim → input_dim` ReLU layers in order; `hiddenStack … t` is the
value of `current` after the first `t` iterations. -/
def hiddenStack (c : Config) (p : Params c) {m : ℕ}
    (inp : Fin m → Fin c.inputDim → ℚ) : ℕ → Fin m → Fin c.inputDim → ℚ
  | 0 => inp
  | t + 1 =>
    if h : t < c.encodeLayers - 1 then
      reluLayer (hiddenStack c p inp t) (p.hiddenW ⟨t, h⟩) (p.hiddenB ⟨t, h⟩)
    else
      hiddenStack c p inp t

/-- Line 66: `self.encoded`, the final `input_dim → hidden_units` ReLU layer
applied after the loop.  Defined for any number of rows `m`, as the
placeholder's batch dimension is unconstrained (line 61). -/
def encoded (c : Config) (p : Params c) {m : ℕ}
    (inp : Fin m → Fin c.inputDim → ℚ) : Fin m → Fin c.hiddenUnits → ℚ :=
  reluLayer (hiddenStack c p inp (c.encodeLayers - 1)) p.finalW p.finalB

/-- Lines 114-123: the decode weight — the transpose of the last encode
layer's weight when `tie_weights`, otherwise the independent `decode_W`. -/
def decodeW (c : Config) (p : Params c) : Fin c.hiddenUnits → Fin c.inputDim → ℚ :=
  if c.tieWeights then fun t j => p.finalW j t else p.untiedDecodeW

/-- Line 124: `tf.matmul(input, decode_W) + decode_b`. -/
def decodeLayer (c : Config) (p : Params c) {m : ℕ}
    (inp : Fin m → Fin c.hiddenUnits → ℚ) : Fin m → Fin c.inputDim → ℚ :=
  fun r j => (∑ t, inp r t * decodeW c p t j) + p.decodeB j

/-- Lines 69-86 applied inside the graph: the mask built from the model's
encoded activations with `k = kOf c`. -/
def modelMask (c : Config) (p : Params c)
    (inp : Fin c.batchSize → Fin c.inputDim → ℚ) :
    Fin c.hiddenUnits → Fin c.batchSize → ℚ :=
  maskOf (encoded c p inp) (kOf c)

/-- Line 87 inside the graph. -/
def sparseEncoded (c : Config) (p : Params c)
    (inp : Fin c.batchSize → Fin c.inputDim → ℚ) :
    Fin c.batchSize → Fin c.hiddenUnits → ℚ :=
  sparseOf (encoded c p inp) (kOf c)

/-- Line 89: `self.decoded = self._decode_layer(sparse_encoded)`. -/
def decoded (c : Config) (p : Params c)
    (inp : Fin c.batchSize → Fin c.inputDim → ℚ) :
    Fin c.batchSize → Fin c.inputDim → ℚ :=
  decodeLayer c p (sparseEncoded c p inp)

/-- Line 91: `self.loss = tf.reduce_sum(tf.square(self.decoded - self.input))`. -/
def lossOf (c : Config) (p : Params c)
    (inp : Fin c.batchSize → Fin c.inputDim → ℚ) : ℚ :=
  ∑ r, ∑ j, (decoded c p inp r j - inp r j) ^ 2

/-- Mutable session state: the parameter store plus the `global_step`
variable (lines 57-60), which `minimize(self.loss, self.global_step)`
increments by one per application (lines 92-93). -/
structure ModelState (c : Config) where
  params : Params c
  globalStep : ℕ

/-- Reindexing of a caller-supplied matrix along proofs that its dimensions
agree with the configured ones (the NumPy array is fed to the fixed-shape
placeholder once the shape checks pass). -/
def castInput {rows cols bs d : ℕ} (h1 : rows = bs) (h2 : cols = d)
    (inp : Fin rows → Fin cols → ℚ) : Fin bs → Fin d → ℚ :=
  fun r j => inp (Fin.cast h1.symm r) (Fin.cast h2.symm j)

/-- Message of the ValueError raised on line 146-148. -/
def rowMismatchMsg (rows bs : ℕ) : String :=
  "Input batch size must equal the batch_size provided in the constructor, "
    ++ toString rows ++ " != " ++ toString bs ++ "."

/-- Message of the ValueError raised on line 150-152. -/
def colMismatchMsg (cols d : ℕ) : String :=
  "Dimensionality of input must equal the input_dim provided in the constructor, "
    ++ toString cols ++ " != " ++ toString d ++ "."

/-- Message of the ValueError raised on line 179-181 (the source is missing a
space between the two adjacent string literals, reproduced faithfully). -/
def encodeMismatchMsg (cols d : ℕ) : String :=
  "Dimensionality of input must equal the input_dimprovided in the constructor, "
    ++ toString cols ++ " != " ++ toString d ++ "."

/-- Lines 129-162: `step`.  The optimizer is abstracted as a function `opt`
of the current parameters and the fed input (in the source the optimizer
class is likewise an injected constructor argument); `minimize` additionally
increments `global_step`.  Shape checks are performed, in the source's
order, before anything is run; the fetched `decoded`/`loss` are computed
from the pre-update parameter values.  Like every method of the class, this
presupposes a successfully constructed model, i.e. `constructGraph c` is
`ok` (`kOf c ≥ 1`). -/
def step (c : Config)
    (opt : Params c → (Fin c.batchSize → Fin c.inputDim → ℚ) → Params c)
    (s : ModelState c) (rows cols : ℕ) (inp : Fin rows → Fin cols → ℚ)
    (forwardOnly : Bool) :
    Except String ((Fin c.batchSize → Fin c.inputDim → ℚ) × ℚ) × ModelState c :=
  if h1 : rows = c.batchSize then
    if h2 : cols = c.inputDim then
      let x := castInput h1 h2 inp
      if forwardOnly then
        (Except.ok (decoded c s.params x, lossOf c s.params x), s)
      else
        (Except.ok (decoded c s.params x, lossOf c s.params x),
          ⟨opt s.params x, s.globalStep + 1⟩)
    else (Except.error (colMismatchMsg cols c.inputDim), s)
  else (Except.error (rowMismatchMsg rows c.batchSize), s)

/-- Lines 164-182: `encode`.  Only the column count is validated; the row
count is arbitrary, and only `self.encoded` is fetched. -/
def encodeOp (c : Config) (s : ModelState c) (rows cols : ℕ)
    (inp : Fin rows → Fin cols → ℚ) :
    Except String (Fin rows → Fin c.hiddenUnits → ℚ) × ModelState c :=
  if h : cols = c.inputDim then
    (Except.ok (encoded c s.params (fun r j => inp r (Fin.cast h.symm j))), s)
  else
    (Except.error (encodeMismatchMsg cols c.inputDim), s)

/-- Line 193: `fake_input = 1e15 * tf.eye(self.hidden_units)`. -/
def fakeInput (c : Config) : Fin c.hiddenUnits → Fin c.hiddenUnits → ℚ :=
  fun i j => if i = j then 10 ^ 15 else 0

/-- Lines 184-194: `get_dictionary` runs the decode layer (with variable
reuse, hence on the same parameters) on the scaled identity probe; nothing
is mutated. -/
def getDictionary (c : Config) (s : ModelState c) :
    (Fin c.hiddenUnits → Fin c.inputDim → ℚ) × ModelState c :=
  (decodeLayer c s.params (fakeInput c), s)

/-- Concrete configuration used by the evaluation witnesses:
`input_dim=4, batch_size=4, sparsity=1/2, hidden_units=2, encode_layers=3,
learning_rate=1/100, tie_weights=true`, so `k = 2`. -/
def cW : Config := ⟨4, 4, 1/2, 2, 3, 1/100, true⟩

/-- Concrete parameter values for the witnesses. -/
def pW : Params cW :=
  ⟨fun _ _ _ => 0, fun _ _ => 0, fun _ _ => 1, fun _ => 0,
   fun _ => 1, fun _ _ => 5⟩

/-- Concrete model state for the witnesses. -/
def sW : ModelState cW := ⟨pW, 0⟩

/-- Concrete activation matrix (shape `[batch_size, hidden_units]` = `[4,2]`)
for the witnesses. -/
def EW : Fin 4 → Fin 2 → ℚ := fun b _ => (b.val : ℚ)

/-- Configuration exhibiting `k = 0`: `sparsity=1/20` (the source's default
`0.05`) with `batch_size=10` gives `k = int(0.5) = 0`. -/
def cKZero : Config := ⟨4, 10, 1/20, 2, 3, 1/100, true⟩

/-- Hidden unit 0 of the witness configuration. -/
def hW : Fin cW.hiddenUnits := ⟨0, by decide⟩

/-- Identity optimizer update used by the witnesses (any update function is
admissible; the claims quantify over it). -/
def optW : Params cW → (Fin cW.batchSize → Fin cW.inputDim → ℚ) → Params cW :=
  fun p _ => p

/-- A `[1, 4]` input (wrong row count for `cW`) for the witnesses. -/
def inpRow1 : Fin 1 → Fin 4 → ℚ := fun _ _ => 0

/-- A `[1, 3]` input (wrong column count for `cW`) for the witnesses. -/
def inpCol3 : Fin 1 → Fin 3 → ℚ := fun _ _ => 0

/-- Message of the TypeError the backend raises at the `tf.scatter_nd` call
on line 86 when the index tensor is empty: `tf.stack([])` produces a
float32 constant, and ScatterNd only accepts int32/int64 indices. -/
def scatterNdTypeErrorMsg : String :=
  "TypeError: Value passed to parameter indices has DataType float32 not in list of allowed values: int32, int64"

/-- Construction-time outcome of `__init__`/`_initialize_vars`
(lines 12-95).  The constructor performs no validation of its own; every
graph op on lines 54-95 builds successfully with one exception.  When
`k = int(sparsity * batch_size) = 0`: `tf.nn.top_k(encoded_t, k=0)` builds
(shape `[hidden_units, 0]`), `tf.unstack` on axis 1 returns the empty list,
`row_indices = []`, so line 80 evaluates `tf.stack([])`, which converts the
empty Python list into an empty float32 constant; `tf.reshape` keeps the
dtype, and `tf.scatter_nd` on line 86 then rejects the float32 index tensor
with a TypeError, raised during `__init__` — construction fails fast and no
model object exists.  For `k ≥ 1` the stacked list is non-empty and
inherits int32 from `tf.range`/`top_k`, so every op builds; in particular
`k > batch_size` also builds, because the placeholder's batch dimension
(line 61) is unknown at graph-construction time and `top_k` cannot check
`k` against it — that misconfiguration surfaces only at run time inside
`session.run`. -/
def constructGraph (c : Config) : Except String Unit :=
  if kOf c = 0 then Except.error scatterNdTypeErrorMsg
  else Except.ok ()

/-- Configuration with `k > batch_size`: `sparsity = 2`, `batch_size = 4`
gives `k = int(8) = 8 > 4`. -/
def cBig : Config := ⟨4, 4, 2, 2, 3, 1/100, true⟩

theorem beats_irrefl {n : ℕ} (v : Fin n → ℚ) (i : Fin n) : ¬ beats v i i := by
  rintro (h | ⟨_, h⟩)
  · exact lt_irrefl _ h
  · exact lt_irrefl _ h

theorem beats_trans {n : ℕ} (v : Fin n → ℚ) {i j l : Fin n}
    (h1 : beats v i j) (h2 : beats v j l) : beats v i l := by
  rcases h1 with h1 | ⟨e1, h1⟩ <;> rcases h2 with h2 | ⟨e2, h2⟩
  · exact Or.inl (h2.trans h1)
  · exact Or.inl (e2 ▸ h1)
  · exact Or.inl (e1 ▸ h2)
  · exact Or.inr ⟨e1.trans e2, h1.trans h2⟩

theorem beats_total {n : ℕ} (v : Fin n → ℚ) {i j : Fin n} (hne : i ≠ j) :
    beats v i j ∨ beats v j i := by
  rcases lt_trichotomy (v i) (v j) with h | h | h
  · exact Or.inr (Or.inl h)
  · rcases Ne.lt_or_lt hne with hij | hij
    · exact Or.inl (Or.inr ⟨h, hij⟩)
    · exact Or.inr (Or.inr ⟨h.symm, hij⟩)
  · exact Or.inl (Or.inl h)

theorem rank_lt_of_beats {n : ℕ} (v : Fin n → ℚ) {i j : Fin n}
    (h : beats v i j) : rank v i < rank v j := by
  apply Finset.card_lt_card
  rw [Finset.ssubset_iff_of_subset]
  · exact ⟨i, by simpa using h, by simpa using beats_irrefl v i⟩
  · intro m hm
    simp only [Finset.mem_filter, Finset.mem_univ, true_and] at hm ⊢
    exact beats_trans v hm h

theorem rank_lt {n : ℕ} (v : Fin n → ℚ) (i : Fin n) : rank v i < n := by
  have h1 : (Finset.univ.filter (fun m => beats v m i)) ⊂ Finset.univ := by
    rw [Finset.ssubset_univ_iff]
    intro hEq
    have hmem : i ∈ Finset.univ.filter (fun m => beats v m i) := by
      rw [hEq]; exact Finset.mem_univ i
    exact beats_irrefl v i (by simpa using hmem)
  simpa [Finset.card_univ] using Finset.card_lt_card h1

/-- Priority positions as a map `Fin n → Fin n`. -/
def rankFin {n : ℕ} (v : Fin n → ℚ) (i : Fin n) : Fin n :=
  ⟨rank v i, rank_lt v i⟩

theorem rankFin_injective {n : ℕ} (v : Fin n → ℚ) :
    Function.Injective (rankFin v) := by
  intro a b hab
  by_contra hne
  have hval : rank v a = rank v b := congrArg Fin.val hab
  rcases beats_total v hne with h | h
  · exact absurd hval (Nat.ne_of_lt (rank_lt_of_beats v h))
  · exact absurd hval.symm (Nat.ne_of_lt (rank_lt_of_beats v h))

theorem rankFin_bijective {n : ℕ} (v : Fin n → ℚ) :
    Function.Bijective (rankFin v) :=
  Finite.injective_iff_bijective.mp (rankFin_injective v)

theorem card_filter_val_lt {n k : ℕ} (hk : k ≤ n) :
    (Finset.univ.filter (fun r : Fin n => r.val < k)).card = k := by
  have hmap : (Finset.univ.filter (fun r : Fin n => r.val < k)) =
      (Finset.univ : Finset (Fin k)).map
        ⟨fun a => ⟨a.val, lt_of_lt_of_le a.isLt hk⟩,
         fun a b hab => by
           apply Fin.ext
           simpa using congrArg Fin.val hab⟩ := by
    ext r
    simp only [Finset.mem_filter, Finset.mem_univ, true_and, Finset.mem_map,
      Function.Embedding.coeFn_mk]
    constructor
    · intro hr
      exact ⟨⟨r.val, hr⟩, Fin.ext rfl⟩
    · rintro ⟨a, _, rfl⟩
      exact a.isLt
  rw [hmap, Finset.card_map, Finset.card_univ, Fintype.card_fin]

theorem topk_card {n : ℕ} (v : Fin n → ℚ) {k : ℕ} (hk : k ≤ n) :
    (topk v k).card = k := by
  have hbij : (topk v k).card =
      (Finset.univ.filter (fun r : Fin n => r.val < k)).card := by
    apply Finset.card_bij (fun a _ => rankFin v a)
    · intro a ha
      simp only [topk, Finset.mem_filter, Finset.mem_univ, true_and] at ha ⊢
      exact ha
    · intro a _ b _ hab
      exact rankFin_injective v hab
    · intro b hb
      obtain ⟨a, ha⟩ := (rankFin_bijective v).surjective b
      refine ⟨a, ?_, ha⟩
      simp only [Finset.mem_filter, Finset.mem_univ, true_and] at hb
      simp only [topk, Finset.mem_filter, Finset.mem_univ, true_and]
      rw [show rank v a = (rankFin v a).val from rfl, ha]
      exact hb
  rw [hbij, card_filter_val_lt hk]

theorem topk_ge {n k : ℕ} (v : Fin n → ℚ) {i j : Fin n}
    (hi : i ∈ topk v k) (hj : j ∉ topk v k) : v j ≤ v i := by
  by_contra hlt
  push_neg at hlt
  have hb : beats v j i := Or.inl hlt
  have hr := rank_lt_of_beats v hb
  simp only [topk, Finset.mem_filter, Finset.mem_univ, true_and] at hi hj
  exact hj (hr.trans hi)

theorem maskOf_eq_indicator {bs hu : ℕ} (E : Fin bs → Fin hu → ℚ) (k : ℕ)
    (h : Fin hu) (b : Fin bs) :
    maskOf E k h b =
      if b ∈ topk (fun b2 => E b2 h) k then 1 else 0 := by
  unfold maskOf
  rw [Finset.filter_eq']
  split <;> simp

theorem maskOf_eq_one_iff {bs hu : ℕ} (E : Fin bs → Fin hu → ℚ) (k : ℕ)
    (h : Fin hu) (b : Fin bs) :
    maskOf E k h b = 1 ↔ b ∈ topk (fun b2 => E b2 h) k := by
  rw [maskOf_eq_indicator]
  split <;> simp_all

theorem maskOf_eq_zero_iff {bs hu : ℕ} (E : Fin bs → Fin hu → ℚ) (k : ℕ)
    (h : Fin hu) (b : Fin bs) :
    maskOf E k h b = 0 ↔ b ∉ topk (fun b2 => E b2 h) k := by
  rw [maskOf_eq_indicator]
  split <;> simp_all

theorem castInput_id {bs d : ℕ} (h1 : bs = bs) (h2 : d = d)
    (inp : Fin bs → Fin d → ℚ) : castInput h1 h2 inp = inp := rfl

theorem kOf_cW : kOf cW = 2 := by
  simp only [kOf, cW]
  norm_num [Rat.floor_def']
  decide

theorem kOf_cKZero : kOf cKZero = 0 := by
  simp only [kOf, cKZero]
  norm_num [Rat.floor_def']

theorem kOf_cBig : kOf cBig = 8 := by
  simp only [kOf, cBig]
  norm_num [Rat.floor_def']
  decide

theorem step_valid_eq (c : Config)
    (opt : Params c → (Fin c.batchSize → Fin c.inputDim → ℚ) → Params c)
    (s : ModelState c) (fo : Bool)
    (inp : Fin c.batchSize → Fin c.inputDim → ℚ) :
    step c opt s c.batchSize c.inputDim inp fo =
      (Except.ok (decoded c s.params inp, lossOf c s.params inp),
       if fo then s else ⟨opt s.params inp, s.globalStep + 1⟩) := by
  unfold step
  rw [dif_pos rfl, dif_pos rfl]
  cases fo <;> rfl

/-- C1: for every encoded activation matrix and every configuration whose
`k = floor(sparsity * batch_size)` satisfies `0 < k ≤ batch_size`, each row
of the lifetime-sparsity mask (one row per hidden unit) holds exactly `k`
entries equal to 1 and `batch_size - k` entries equal to 0, and every
position set to 1 carries an activation at least as large as every position
set to 0 — the ones mark the `k` largest activations of that hidden unit
across the batch. -/
theorem mask_rows_exactly_k_top (c : Config)
    (E : Fin c.batchSize → Fin c.hiddenUnits → ℚ)
    (hk0 : 0 < kOf c) (hkb : kOf c ≤ c.batchSize) (h : Fin c.hiddenUnits) :
    (Finset.univ.filter (fun b => maskOf E (kOf c) h b = 1)).card = kOf c
    ∧ (Finset.univ.filter (fun b => maskOf E (kOf c) h b = 0)).card
        = c.batchSize - kOf c
    ∧ ∀ b b' : Fin c.batchSize, maskOf E (kOf c) h b = 1 →
        maskOf E (kOf c) h b' = 0 → E b' h ≤ E b h := by
  have hone : (Finset.univ.filter (fun b => maskOf E (kOf c) h b = 1))
      = topk (fun b2 => E b2 h) (kOf c) := by
    ext b
    simp [maskOf_eq_one_iff]
  have hzero : (Finset.univ.filter (fun b => maskOf E (kOf c) h b = 0))
      = (topk (fun b2 => E b2 h) (kOf c))ᶜ := by
    ext b
    simp [maskOf_eq_zero_iff]
  refine ⟨?_, ?_, ?_⟩
  · rw [hone, topk_card _ hkb]
  · rw [hzero, Finset.card_compl, Fintype.card_fin, topk_card _ hkb]
  · intro b b' hb hb'
    exact topk_ge _ ((maskOf_eq_one_iff E _ h b).mp hb)
      ((maskOf_eq_zero_iff E _ h b').mp hb')

/-- Witness for C1 at the concrete configuration `cW` (where `k = 2`,
`batch_size = 4`) and activation matrix `EW`, hidden unit 0. -/
theorem mask_rows_exactly_k_top_witness :
    (0 < kOf cW) ∧ (kOf cW ≤ cW.batchSize) ∧
      ((Finset.univ.filter (fun b => maskOf EW (kOf cW) hW b = 1)).card = kOf cW
       ∧ (Finset.univ.filter (fun b => maskOf EW (kOf cW) hW b = 0)).card
           = cW.batchSize - kOf cW
       ∧ ∀ b b' : Fin cW.batchSize, maskOf EW (kOf cW) hW b = 1 →
           maskOf EW (kOf cW) hW b' = 0 → EW b' hW ≤ EW b hW) :=
  ⟨by rw [kOf_cW]; decide, by rw [kOf_cW]; decide,
   mask_rows_exactly_k_top cW EW (by rw [kOf_cW]; decide)
     (by rw [kOf_cW]; decide) hW⟩

/-- C2: the sparse code is the elementwise product of the activations with
the transposed mask; the mask is binary, a 1 keeps the original activation
magnitude unchanged and a 0 zeroes the entry. -/
theorem sparse_code_masking (bs hu : ℕ) (E : Fin bs → Fin hu → ℚ) (k : ℕ)
    (i : Fin bs) (j : Fin hu) :
    sparseOf E k i j = E i j * maskOf E k j i
    ∧ (maskOf E k j i = 1 ∨ maskOf E k j i = 0)
    ∧ (maskOf E k j i = 1 → sparseOf E k i j = E i j)
    ∧ (maskOf E k j i = 0 → sparseOf E k i j = 0) := by
  refine ⟨rfl, ?_, ?_, ?_⟩
  · rw [maskOf_eq_indicator]
    split
    · exact Or.inl rfl
    · exact Or.inr rfl
  · intro hmask
    unfold sparseOf
    rw [hmask, mul_one]
  · intro hmask
    unfold sparseOf
    rw [hmask, mul_zero]

/-- Witness for C2 at the concrete matrix `EW` with `k = 2` and entry
`(0, 0)`. -/
theorem sparse_code_masking_witness :
    sparseOf EW 2 0 0 = EW 0 0 * maskOf EW 2 0 0
    ∧ (maskOf EW 2 0 0 = 1 ∨ maskOf EW 2 0 0 = 0)
    ∧ (maskOf EW 2 0 0 = 1 → sparseOf EW 2 0 0 = EW 0 0)
    ∧ (maskOf EW 2 0 0 = 0 → sparseOf EW 2 0 0 = 0) :=
  sparse_code_masking 4 2 EW 2 0 0

/-- C3 counterexample: the configuration `input_dim=4, batch_size=4,
sparsity=2, hidden_units=2, encode_layers=3` has
`k = int(2 * 4) = 8 > batch_size`, yet graph construction succeeds — no
error of any kind is raised at construction time (the placeholder's batch
dimension is unknown when the graph is built, so `top_k` cannot check `k`
against it), refuting the claim that every configuration with
`k > batch_size` fails fast in the constructor. -/
theorem k_exceeds_batch_constructs :
    kOf cBig = 8 ∧ cBig.batchSize < kOf cBig
    ∧ constructGraph cBig = Except.ok () := by
  refine ⟨kOf_cBig, ?_, ?_⟩
  · rw [kOf_cBig]
    decide
  · unfold constructGraph
    rw [if_neg (by rw [kOf_cBig]; decide)]

/-- C3 amended: construction fails fast at construction time exactly when
`k = int(sparsity * batch_size) = 0` — not through a deliberate
configuration check (the constructor validates nothing) but through the
backend TypeError raised at the `tf.scatter_nd` call on line 86, whose
empty index tensor comes out of `tf.stack([])` as float32; the exception
propagates out of `__init__`, so no partial model is usable.  For every
`k ≥ 1`, including the misconfigured `k > batch_size`, construction
succeeds, and a `k > batch_size` failure surfaces only at run time. -/
theorem construction_fails_iff_k_zero (c : Config) :
    (kOf c = 0 → constructGraph c = Except.error scatterNdTypeErrorMsg)
    ∧ (kOf c ≠ 0 → constructGraph c = Except.ok ()) := by
  constructor
  · intro h
    unfold constructGraph
    rw [if_pos h]
  · intro h
    unfold constructGraph
    rw [if_neg h]

/-- Witness for C3 at the concrete configuration `cKZero`
(`sparsity = 0.05`, `batch_size = 10`, so `k = 0` and construction raises
the scatter_nd TypeError). -/
theorem construction_fails_iff_k_zero_witness :
    kOf cKZero = 0
    ∧ constructGraph cKZero = Except.error scatterNdTypeErrorMsg
    ∧ constructGraph cBig = Except.ok () :=
  ⟨kOf_cKZero,
   (construction_fails_iff_k_zero cKZero).1 kOf_cKZero,
   (construction_fails_iff_k_zero cBig).2 (by rw [kOf_cBig]; decide)⟩

/-- C4: a `step` whose input row count or column count disagrees with the
configured `batch_size`/`input_dim` returns the corresponding ValueError —
whose message spells out both the offending value and the configured value —
without running any computation or update: the entire model state
(parameters and step counter) is returned unchanged. -/
theorem step_shape_mismatch (c : Config)
    (opt : Params c → (Fin c.batchSize → Fin c.inputDim → ℚ) → Params c)
    (s : ModelState c) (rows cols : ℕ) (inp : Fin rows → Fin cols → ℚ)
    (fo : Bool) (hbad : rows ≠ c.batchSize ∨ cols ≠ c.inputDim) :
    (step c opt s rows cols inp fo).2 = s
    ∧ (∃ msg, (step c opt s rows cols inp fo).1 = Except.error msg)
    ∧ (rows ≠ c.batchSize →
        (step c opt s rows cols inp fo).1 = Except.error
          ("Input batch size must equal the batch_size provided in the constructor, "
            ++ toString rows ++ " != " ++ toString c.batchSize ++ "."))
    ∧ (rows = c.batchSize → cols ≠ c.inputDim →
        (step c opt s rows cols inp fo).1 = Except.error
          ("Dimensionality of input must equal the input_dim provided in the constructor, "
            ++ toString cols ++ " != " ++ toString c.inputDim ++ ".")) := by
  by_cases h1 : rows = c.batchSize
  · by_cases h2 : cols = c.inputDim
    · rcases hbad with hb | hb
      · exact absurd h1 hb
      · exact absurd h2 hb
    · unfold step
      rw [dif_pos h1]
      subst h1
      rw [dif_neg h2]
      exact ⟨rfl, ⟨_, rfl⟩, fun hr => absurd rfl hr, fun _ _ => rfl⟩
  · unfold step
    rw [dif_neg h1]
    exact ⟨rfl, ⟨_, rfl⟩, fun _ => rfl, fun hr _ => absurd hr h1⟩

/-- Witness for C4: feeding a `[1, 4]` input to the model configured with
`batch_size = 4` (a row-count mismatch). -/
theorem step_shape_mismatch_witness :
    (1 ≠ cW.batchSize ∨ 4 ≠ cW.inputDim)
    ∧ ((step cW optW sW 1 4 inpRow1 true).2 = sW
       ∧ (∃ msg, (step cW optW sW 1 4 inpRow1 true).1 = Except.error msg)
       ∧ (1 ≠ cW.batchSize →
           (step cW optW sW 1 4 inpRow1 true).1 = Except.error
             ("Input batch size must equal the batch_size provided in the constructor, "
               ++ toString 1 ++ " != " ++ toString cW.batchSize ++ "."))
       ∧ (1 = cW.batchSize → 4 ≠ cW.inputDim →
           (step cW optW sW 1 4 inpRow1 true).1 = Except.error
             ("Dimensionality of input must equal the input_dim provided in the constructor, "
               ++ toString 4 ++ " != " ++ toString cW.inputDim ++ "."))) :=
  ⟨by decide, step_shape_mismatch cW optW sW 1 4 inpRow1 true (by decide)⟩

/-- C5: forward-only evaluation returns exactly the `(decoded, loss)` pair
that training mode returns (training fetches them from the pre-update
parameters), leaves the whole model state unchanged, and two consecutive
forward-only calls with the same input give bit-identical results. -/
theorem forward_only_frame (c : Config)
    (opt : Params c → (Fin c.batchSize → Fin c.inputDim → ℚ) → Params c)
    (s : ModelState c) (inp : Fin c.batchSize → Fin c.inputDim → ℚ) :
    (step c opt s c.batchSize c.inputDim inp true).1
        = (step c opt s c.batchSize c.inputDim inp false).1
    ∧ (step c opt s c.batchSize c.inputDim inp true).2 = s
    ∧ step c opt ((step c opt s c.batchSize c.inputDim inp true).2)
        c.batchSize c.inputDim inp true
        = step c opt s c.batchSize c.inputDim inp true := by
  rw [step_valid_eq, step_valid_eq]
  refine ⟨rfl, rfl, ?_⟩
  rw [step_valid_eq]
  rfl

/-- C6: the step counter is monotone — it never decreases under any call,
any change is an increment by exactly one, a validated training step
increments it by exactly one, and every other operation (forward-only step,
rejected step, encode, dictionary extraction) leaves the state untouched. -/
theorem global_step_monotone (c : Config)
    (opt : Params c → (Fin c.batchSize → Fin c.inputDim → ℚ) → Params c)
    (s : ModelState c) (rows cols : ℕ) (inp : Fin rows → Fin cols → ℚ)
    (fo : Bool) (inp2 : Fin c.batchSize → Fin c.inputDim → ℚ) :
    s.globalStep ≤ (step c opt s rows cols inp fo).2.globalStep
    ∧ ((step c opt s rows cols inp fo).2.globalStep = s.globalStep
        ∨ (step c opt s rows cols inp fo).2.globalStep = s.globalStep + 1)
    ∧ (step c opt s c.batchSize c.inputDim inp2 false).2.globalStep
        = s.globalStep + 1
    ∧ (step c opt s rows cols inp true).2 = s
    ∧ (encodeOp c s rows cols inp).2 = s
    ∧ (getDictionary c s).2 = s := by
  have hcases : (step c opt s rows cols inp fo).2 = s
      ∨ (step c opt s rows cols inp fo).2.globalStep = s.globalStep + 1 := by
    unfold step
    by_cases h1 : rows = c.batchSize
    · rw [dif_pos h1]
      by_cases h2 : cols = c.inputDim
      · rw [dif_pos h2]
        cases fo
        · exact Or.inr rfl
        · exact Or.inl rfl
      · rw [dif_neg h2]
        exact Or.inl rfl
    · rw [dif_neg h1]
      exact Or.inl rfl
  have hfwd : (step c opt s rows cols inp true).2 = s := by
    unfold step
    by_cases h1 : rows = c.batchSize
    · rw [dif_pos h1]
      by_cases h2 : cols = c.inputDim
      · rw [dif_pos h2]
        rfl
      · rw [dif_neg h2]
    · rw [dif_neg h1]
  refine ⟨?_, ?_, ?_, hfwd, ?_, rfl⟩
  · rcases hcases with h | h
    · rw [h]
    · rw [h]
      exact Nat.le_succ _
  · rcases hcases with h | h
    · exact Or.inl (by rw [h])
    · exact Or.inr h
  · rw [step_valid_eq]
    rfl
  · unfold encodeOp
    by_cases h : cols = c.inputDim
    · rw [dif_pos h]
    · rw [dif_neg h]

/-- C7: in tied-weight mode the decode weight is exactly the transpose of
the final encoder layer's weight; the decode layer's output depends on no
parameter besides that shared weight and `decode_b` (in particular not on
the unused independent `decode_W` slot); and both decode invocations — the
one inside the training graph producing `decoded` and the standalone one in
`get_dictionary` — read the very same `finalW`/`decodeB` values. -/
theorem tied_weights_shared (c : Config) (hc : c.tieWeights = true)
    (p : Params c) (n : ℕ) :
    (∀ t j, decodeW c p t j = p.finalW j t)
    ∧ (∀ q : Params c, q.finalW = p.finalW → q.decodeB = p.decodeB →
        ∀ (m : ℕ) (x : Fin m → Fin c.hiddenUnits → ℚ),
          decodeLayer c q x = decodeLayer c p x)
    ∧ (∀ (inp : Fin c.batchSize → Fin c.inputDim → ℚ) r j,
        decoded c p inp r j
          = (∑ t, sparseEncoded c p inp r t * p.finalW j t) + p.decodeB j)
    ∧ (∀ i j, (getDictionary c ⟨p, n⟩).1 i j
        = (∑ t, fakeInput c i t * p.finalW j t) + p.decodeB j) := by
  have hW : ∀ t j, decodeW c p t j = p.finalW j t := by
    intro t j
    unfold decodeW
    rw [hc]
    simp
  refine ⟨hW, ?_, ?_, ?_⟩
  · intro q hWq hBq m x
    funext r j
    unfold decodeLayer decodeW
    rw [hc, hWq, hBq]
    simp
  · intro inp r j
    unfold decoded decodeLayer
    simp only [hW]
  · intro i j
    unfold getDictionary decodeLayer
    simp only [hW]

/-- Witness for C7 at the concrete tied configuration `cW` and parameters
`pW`. -/
theorem tied_weights_shared_witness :
    cW.tieWeights = true
    ∧ ((∀ t j, decodeW cW pW t j = pW.finalW j t)
       ∧ (∀ q : Params cW, q.finalW = pW.finalW → q.decodeB = pW.decodeB →
           ∀ (m : ℕ) (x : Fin m → Fin cW.hiddenUnits → ℚ),
             decodeLayer cW q x = decodeLayer cW pW x)
       ∧ (∀ (inp : Fin cW.batchSize → Fin cW.inputDim → ℚ) r j,
           decoded cW pW inp r j
             = (∑ t, sparseEncoded cW pW inp r t * pW.finalW j t) + pW.decodeB j)
       ∧ (∀ i j, (getDictionary cW ⟨pW, 0⟩).1 i j
           = (∑ t, fakeInput cW i t * pW.finalW j t) + pW.decodeB j)) :=
  ⟨rfl, tied_weights_shared cW rfl pW 0⟩

/-- C8: every step call that passes the shape checks returns as loss the
raw sum, over all `batch_size * input_dim` entries, of the squared
differences between the returned reconstruction and the input — no
averaging or normalization. -/
theorem loss_raw_sum_squares (c : Config)
    (opt : Params c → (Fin c.batchSize → Fin c.inputDim → ℚ) → Params c)
    (s : ModelState c) (fo : Bool)
    (inp : Fin c.batchSize → Fin c.inputDim → ℚ) :
    (step c opt s c.batchSize c.inputDim inp fo).1 =
      Except.ok (decoded c s.params inp,
        ∑ r, ∑ j, (decoded c s.params inp r j - inp r j) ^ 2) := by
  rw [step_valid_eq]
  rfl

/-- C9: the encode-only operation validates only the column count — any row
count (including one different from the configured `batch_size`) is
accepted and yields the raw encoder-stack output, with no sparsity mask or
decode applied; a column mismatch yields the shape ValueError; the state is
never touched. -/
theorem encode_only_validates_cols (c : Config) (s : ModelState c)
    (rows cols : ℕ) (inp : Fin rows → Fin cols → ℚ)
    (inp2 : Fin rows → Fin c.inputDim → ℚ) :
    (encodeOp c s rows cols inp).2 = s
    ∧ (encodeOp c s rows c.inputDim inp2).1
        = Except.ok (encoded c s.params inp2)
    ∧ encoded c s.params inp2
        = reluLayer (hiddenStack c s.params inp2 (c.encodeLayers - 1))
            s.params.finalW s.params.finalB
    ∧ (cols ≠ c.inputDim →
        (encodeOp c s rows cols inp).1
          = Except.error (encodeMismatchMsg cols c.inputDim)) := by
  refine ⟨?_, ?_, rfl, ?_⟩
  · unfold encodeOp
    by_cases h : cols = c.inputDim
    · rw [dif_pos h]
    · rw [dif_neg h]
  · unfold encodeOp
    rw [dif_pos rfl]
    rfl
  · intro h
    unfold encodeOp
    rw [dif_neg h]

/-- Witness for C9: a `[1, 3]` input is rejected for its column count while
a `[1, 4]` input is encoded even though the configured batch size is 4. -/
theorem encode_only_validates_cols_witness :
    (encodeOp cW sW 1 3 inpCol3).2 = sW
    ∧ (encodeOp cW sW 1 cW.inputDim inpRow1).1
        = Except.ok (encoded cW sW.params inpRow1)
    ∧ encoded cW sW.params inpRow1
        = reluLayer (hiddenStack cW sW.params inpRow1 (cW.encodeLayers - 1))
            sW.params.finalW sW.params.finalB
    ∧ (3 ≠ cW.inputDim →
        (encodeOp cW sW 1 3 inpCol3).1
          = Except.error (encodeMismatchMsg 3 cW.inputDim)) :=
  encode_only_validates_cols cW sW 1 3 inpCol3 inpRow1

/-- C10: `get_dictionary` returns the `[hidden_units, input_dim]` matrix
`(1e15 * I) @ decode_W + decode_b`: every dictionary row is the matching
decode weight row scaled by `1e15` with the decode bias vector added, and
the model state is untouched. -/
theorem dictionary_scaled_weight_plus_bias (c : Config) (s : ModelState c) :
    (∀ i j, (getDictionary c s).1 i j
        = 10 ^ 15 * decodeW c s.params i j + s.params.decodeB j)
    ∧ (getDictionary c s).2 = s := by
  refine ⟨?_, rfl⟩
  intro i j
  unfold getDictionary decodeLayer fakeInput
  simp [ite_mul, Finset.sum_ite_eq]

end WTA
